import Mathlib

/-!
Verification development for the `nats-pocketbase-sync` service: a shallow
embedding of its reconciliation pipeline (config generation from role/user
records, change detection, atomic publication, backup retention sweeping,
rate-limited reload signaling, and the periodic orchestration loop), together
with theorems settling the specification claims about it.

Modelling conventions:
- Go strings are Lean `String`s; `strings.ToUpper` / `strings.ToLower` are
  modelled character-wise on the ASCII range (the inputs exercised by the
  claims are ASCII; Go additionally folds non-ASCII letters).
- Go machine integers and `time.Duration` values are modelled as `Int`
  (the durations involved are far below the `int64` overflow range).
- SHA-256 (`calculateHash`) is kept abstract: the change-detection functions
  take the hash as an explicit function parameter, since no claim depends on
  anything but it being a function of the content.
- Filesystem and subprocess effects are modelled by explicit state records
  plus fault/result oracles passed as arguments.
-/

namespace Sync

/-! ## String helpers -/

/-- ASCII lower-casing of one character (model of what `strings.ToLower`
does on the ASCII range). -/
def lowerChar (c : Char) : Char :=
  if 'A' ≤ c ∧ c ≤ 'Z' then Char.ofNat (c.toNat + 32) else c

/-- ASCII upper-casing of one character (model of what `strings.ToUpper`
does on the ASCII range). -/
def upperChar (c : Char) : Char :=
  if 'a' ≤ c ∧ c ≤ 'z' then Char.ofNat (c.toNat - 32) else c

/-- `strings.ToLower`, character-wise. -/
def strToLower (s : String) : String :=
  String.mk (s.data.map lowerChar)

/-- `strings.ToUpper`, character-wise. -/
def strToUpper (s : String) : String :=
  String.mk (s.data.map upperChar)

/-- `fmt.Sprintf("\"%s\"", s)`: wrap a string in double quotes. -/
def quoteStr (s : String) : String :=
  String.mk ('"' :: (s.data ++ ['"']))

/-- Lexicographic comparison of character lists: the model of Go's `<` on
strings (byte-wise comparison of UTF-8 strings coincides with code-point
lexicographic order). -/
def strLtB : List Char → List Char → Bool
  | [], [] => false
  | [], _ :: _ => true
  | _ :: _, [] => false
  | a :: as, b :: bs => if a < b then true else if b < a then false else strLtB as bs

/-- Go's `s < t` on strings, as a proposition. -/
def strLt (a b : String) : Prop := strLtB a.data b.data = true

instance : DecidableRel strLt :=
  fun a b => inferInstanceAs (Decidable (strLtB a.data b.data = true))

/-- Whitespace in the sense of `strings.Fields` (`unicode.IsSpace`,
restricted to the ASCII whitespace actually relevant here). -/
def goSpace (c : Char) : Bool :=
  c = ' ' || c = '\t' || c = '\n' || c = '\r' || c = '\x0b' || c = '\x0c'

/-- Accumulator-passing core of `strings.Fields`. -/
def fieldsAux (cur : List Char) : List Char → List String
  | [] => if cur.isEmpty then [] else [String.mk cur.reverse]
  | c :: rest =>
    if goSpace c then
      if cur.isEmpty then fieldsAux [] rest
      else String.mk cur.reverse :: fieldsAux [] rest
    else fieldsAux (c :: cur) rest

/-- `strings.Fields`: split around runs of whitespace. -/
def fields (s : String) : List String :=
  fieldsAux [] s.data

/-! ## JSON string-array parsing

Model of `json.Unmarshal(data, &[]string)` as used by
`MqttRole.GetPublishPermissions` / `GetSubscribePermissions`: the input must
be (up to JSON whitespace) either `null` or an array of JSON strings;
anything else is a decode error, modelled as `none`.  Escape sequences follow
`encoding/json`; a lone UTF-16 surrogate decodes to U+FFFD as in Go
(surrogate-pair recombination is not modelled — no claim exercises it). -/

/-- JSON insignificant whitespace. -/
def jsonWs (c : Char) : Bool :=
  c = ' ' || c = '\t' || c = '\n' || c = '\r'

/-- Drop leading JSON whitespace. -/
def skipWs : List Char → List Char
  | [] => []
  | c :: rest => if jsonWs c then skipWs rest else c :: rest

/-- Value of one hexadecimal digit. -/
def hexVal (c : Char) : Option Nat :=
  if '0' ≤ c ∧ c ≤ '9' then some (c.toNat - '0'.toNat)
  else if 'a' ≤ c ∧ c ≤ 'f' then some (c.toNat - 'a'.toNat + 10)
  else if 'A' ≤ c ∧ c ≤ 'F' then some (c.toNat - 'A'.toNat + 10)
  else none

/-- Parse the body of a JSON string (the opening quote already consumed),
returning the decoded string and the rest of the input. -/
def parseJsonStringAux (acc : List Char) : List Char → Option (String × List Char)
  | [] => none
  | c :: rest =>
    if c = '"' then some (String.mk acc.reverse, rest)
    else if c = '\\' then
      match rest with
      | [] => none
      | e :: rest2 =>
        if e = '"' then parseJsonStringAux ('"' :: acc) rest2
        else if e = '\\' then parseJsonStringAux ('\\' :: acc) rest2
        else if e = '/' then parseJsonStringAux ('/' :: acc) rest2
        else if e = 'b' then parseJsonStringAux (Char.ofNat 8 :: acc) rest2
        else if e = 'f' then parseJsonStringAux (Char.ofNat 12 :: acc) rest2
        else if e = 'n' then parseJsonStringAux ('\n' :: acc) rest2
        else if e = 'r' then parseJsonStringAux ('\r' :: acc) rest2
        else if e = 't' then parseJsonStringAux ('\t' :: acc) rest2
        else if e = 'u' then
          match rest2 with
          | h1 :: h2 :: h3 :: h4 :: rest3 =>
            match hexVal h1, hexVal h2, hexVal h3, hexVal h4 with
            | some a, some b, some c3, some d =>
              let n := ((a * 16 + b) * 16 + c3) * 16 + d
              let ch := if 0xD800 ≤ n ∧ n ≤ 0xDFFF then Char.ofNat 0xFFFD else Char.ofNat n
              parseJsonStringAux (ch :: acc) rest3
            | _, _, _, _ => none
          | _ => none
        else none
    else if c.toNat < 0x20 then none
    else parseJsonStringAux (c :: acc) rest

/-- After one array element: repeatedly consume `, "elem"` until `]`.
The fuel is an upper bound on the number of remaining separators; callers
pass the length of the remaining input plus one, which can never run out. -/
def parseJsonArrayRest (fuel : Nat) (cs : List Char) : Option (List String × List Char) :=
  match fuel with
  | 0 => none
  | fuel' + 1 =>
    match skipWs cs with
    | ',' :: rest =>
      match skipWs rest with
      | '"' :: rest2 =>
        match parseJsonStringAux [] rest2 with
        | some (s, rest3) =>
          match parseJsonArrayRest fuel' rest3 with
          | some (elems, r) => some (s :: elems, r)
          | none => none
        | none => none
      | _ => none
    | ']' :: rest => some ([], rest)
    | _ => none

/-- Parse the elements of a JSON string array (the opening bracket already
consumed), returning the elements and the rest of the input. -/
def parseJsonArrayElems (cs : List Char) : Option (List String × List Char) :=
  match skipWs cs with
  | ']' :: rest => some ([], rest)
  | '"' :: rest =>
    match parseJsonStringAux [] rest with
    | some (s, rest2) =>
      match parseJsonArrayRest (rest2.length + 1) rest2 with
      | some (elems, r) => some (s :: elems, r)
      | none => none
    | none => none
  | _ => none

/-- `json.Unmarshal(bytes, &[]string)`: `none` is a decode error.  A JSON
`null` leaves the slice nil, which is indistinguishable from the empty list
for all downstream formatting. -/
def parseStringArray (s : String) : Option (List String) :=
  match skipWs s.data with
  | 'n' :: 'u' :: 'l' :: 'l' :: rest =>
    if (skipWs rest).isEmpty then some [] else none
  | '[' :: rest =>
    match parseJsonArrayElems rest with
    | some (elems, rest2) => if (skipWs rest2).isEmpty then some elems else none
    | none => none
  | _ => none

/-! ## Data model (`internal/models/pocketbase.go`)

The metadata fields (`CollectionID`, `CollectionName`, `Created`, `Updated`)
are omitted: no embedded operation reads them. -/

/-- A record of the PocketBase MQTT roles collection.  The permission fields
hold the raw JSON bytes (`json.RawMessage`). -/
structure MqttRole where
  id : String
  name : String
  publishPermissions : String
  subscribePermissions : String
  deriving DecidableEq, Repr

/-- A record of the PocketBase MQTT users collection. -/
structure MqttUser where
  id : String
  username : String
  password : String
  roleID : String
  active : Bool
  deriving DecidableEq, Repr

/-- `MqttRole.NormalizeRoleName`: upper-case, spaces to underscores, then
strip everything that is not `A`–`Z`, `0`–`9` or `_`. -/
def normalizeRoleName (r : MqttRole) : String :=
  let upped := (strToUpper r.name).data
  let replaced := upped.map (fun c => if c = ' ' then '_' else c)
  String.mk (replaced.filter
    (fun c => ('A' ≤ c ∧ c ≤ 'Z') ∨ ('0' ≤ c ∧ c ≤ '9') ∨ c = '_'))

/-- `MqttRole.GetPublishPermissions`: empty raw bytes yield the nil slice
without consulting the decoder; otherwise decode (`none` = error). -/
def getPublishPermissions (r : MqttRole) : Option (List String) :=
  if r.publishPermissions = "" then some []
  else parseStringArray r.publishPermissions

/-- `MqttRole.GetSubscribePermissions`. -/
def getSubscribePermissions (r : MqttRole) : Option (List String) :=
  if r.subscribePermissions = "" then some []
  else parseStringArray r.subscribePermissions

/-- Comma-separated quoted elements, as built by the formatting loop of
`FormatPublishPermissions` / `FormatSubscribePermissions`. -/
def commaJoinQuoted : List String → String
  | [] => ""
  | [p] => quoteStr p
  | p :: rest => quoteStr p ++ ", " ++ commaJoinQuoted rest

/-- The shared rendering of a permission list: empty list is the literal
empty-string token, a singleton is that element quoted, several elements are
a bracketed comma-separated quoted list.  (The Go source repeats this body
verbatim inside both formatter functions.) -/
def renderPerms : List String → String
  | [] => "\"\""
  | [p] => quoteStr p
  | ps => "[" ++ commaJoinQuoted ps ++ "]"

/-- `MqttRole.FormatPublishPermissions`: a decode error degrades to the
empty-string token. -/
def formatPublishPermissions (r : MqttRole) : String :=
  match getPublishPermissions r with
  | none => "\"\""
  | some ps => renderPerms ps

/-- `MqttRole.FormatSubscribePermissions`. -/
def formatSubscribePermissions (r : MqttRole) : String :=
  match getSubscribePermissions r with
  | none => "\"\""
  | some ps => renderPerms ps

/-! ## Config generation (`internal/generator`, `GenerateConfig`) -/

/-- An entry of `NatsConfigData.Roles`. -/
structure NatsRole where
  name : String
  publishPermissions : String
  subscribePermissions : String
  deriving DecidableEq, Repr

/-- An entry of `NatsConfigData.Users`.  `username` already carries the
surrounding quotes added by `GenerateConfig`. -/
structure NatsUser where
  username : String
  password : String
  roleName : String
  isLast : Bool
  deriving DecidableEq, Repr

/-- The fields of a `NatsUser` other than the presentation flag `isLast`. -/
structure NatsUserCore where
  username : String
  password : String
  roleName : String
  deriving DecidableEq, Repr

/-- Forget the `isLast` flag. -/
def coreOf (u : NatsUser) : NatsUserCore :=
  ⟨u.username, u.password, u.roleName⟩

/-- Lookup in the `roleMap` Go map built by `GenerateConfig`'s first loop:
keyed by `role.ID`, a later insertion overwriting an earlier one. -/
def roleMapLookup (roles : List MqttRole) (id : String) : Option MqttRole :=
  roles.reverse.find? (fun r => r.id = id)

/-- Modelled from the spec: the default publish/subscribe permission values
(absent from the provided sources, configured as `interface\x7b\x7d` values)
are "either a single string or a list". -/
inductive DefaultPerm where
  | str (s : String)
  | list (l : List String)
  deriving DecidableEq, Repr

/-- Modelled from the spec: `models.FormatDefaultPermissions` is absent from
the provided sources; per §4.1 each default value is rendered "matching the
same formatting rule" as the role permission lists. -/
def formatDefaultPerm : DefaultPerm → String
  | .str s => renderPerms [s]
  | .list l => renderPerms l

/-- The user loop of `GenerateConfig`: `i` is the `range` index (advancing
over skipped users as well), `total` the length of the input user slice.
A user whose `role_id` is not in the role map is skipped. -/
def buildUsersAux (roles : List MqttRole) (total : Nat) : Nat → List MqttUser → List NatsUser
  | _, [] => []
  | i, u :: rest =>
    match roleMapLookup roles u.roleID with
    | none => buildUsersAux roles total (i + 1) rest
    | some r =>
      ⟨quoteStr u.username, u.password, normalizeRoleName r, decide (i = total - 1)⟩
        :: buildUsersAux roles total (i + 1) rest

/-- The final loop of `GenerateConfig`: re-derive every `IsLast` flag from
the position in the (sorted) user list. -/
def setIsLastAux (total : Nat) : Nat → List NatsUser → List NatsUser
  | _, [] => []
  | i, u :: rest =>
    { u with isLast := decide (i = total - 1) } :: setIsLastAux total (i + 1) rest

/-- Left-to-right insertion of the input into a sorted accumulator.
`sort.Slice` runs insertion sort on short slices (and some deterministic
comparison-driven sort in general); this models it as the stable insertion
sort processing input elements left to right, each inserted after every
accumulated element it does not compare strictly below. -/
def goSortAux (r : α → α → Prop) [DecidableRel r] : List α → List α → List α
  | acc, [] => acc
  | acc, a :: rest => goSortAux r (acc.orderedInsert r a) rest

/-- The `sort.Slice` model: stable insertion sort with strict comparator `r`. -/
def goInsertionSort (r : α → α → Prop) [DecidableRel r] (l : List α) : List α :=
  goSortAux r [] l

/-- The comparison `configData.Roles[i].Name < configData.Roles[j].Name`
used to sort roles. -/
def roleLt (a b : NatsRole) : Prop := strLt a.name b.name

instance : DecidableRel roleLt :=
  fun a b => inferInstanceAs (Decidable (strLt a.name b.name))

/-- The comparison on lower-cased usernames used to sort users. -/
def userLt (a b : NatsUser) : Prop := strLt (strToLower a.username) (strToLower b.username)

instance : DecidableRel userLt :=
  fun a b => inferInstanceAs (Decidable (strLt (strToLower a.username) (strToLower b.username)))

/-- `userLt` transported to `NatsUserCore`. -/
def userCoreLt (a b : NatsUserCore) : Prop := strLt (strToLower a.username) (strToLower b.username)

instance : DecidableRel userCoreLt :=
  fun a b => inferInstanceAs (Decidable (strLt (strToLower a.username) (strToLower b.username)))

/-- `models.NatsConfigData`. -/
structure NatsConfigData where
  defaultPublish : String
  defaultSubscribe : String
  roles : List NatsRole
  users : List NatsUser
  deriving DecidableEq, Repr

/-- Modelled from the spec: one role line of the rendered artifact
(`models.FormatConfigFile` is absent from the provided sources; §4.1 fixes
only that the already-formatted fields are interpolated verbatim, in order). -/
def renderRole (r : NatsRole) : String :=
  "  " ++ r.name ++ " = permissions publish " ++ r.publishPermissions
    ++ " subscribe " ++ r.subscribePermissions ++ "\n"

/-- Modelled from the spec: one user line of the rendered artifact; the
`isLast` flag suppresses the trailing separator of the final entry. -/
def renderUser (u : NatsUser) : String :=
  "    user " ++ u.username ++ " password \"" ++ u.password
    ++ "\" permissions " ++ u.roleName ++ (if u.isLast then "\n" else ",\n")

/-- Modelled from the spec: `models.FormatConfigFile` renders the default
permissions, then the roles in order, then the users in order, into a single
text blob.  It is total: the spec names malformed-permission JSON as the only
failure source of generation, and that is degraded inside the formatters. -/
def formatConfigFile (d : NatsConfigData) : String :=
  "default publish " ++ d.defaultPublish ++ " subscribe " ++ d.defaultSubscribe ++ "\n"
    ++ String.join (d.roles.map renderRole)
    ++ "users:\n" ++ String.join (d.users.map renderUser)

/-- `Generator.GenerateConfig`: build the role map, render and sort the
roles, resolve and render the users (dropping users with an unknown role),
sort them by lower-cased username, recompute the `IsLast` flags, and render
the whole artifact.  The generation error path exists only for a
`FormatConfigFile` error, which the modelled renderer does not produce, so
the result is the artifact text itself. -/
def generateConfig (defaultPublish defaultSubscribe : DefaultPerm)
    (roles : List MqttRole) (users : List MqttUser) : String :=
  let dp := formatDefaultPerm defaultPublish
  let ds := formatDefaultPerm defaultSubscribe
  let natsRoles := roles.map
    (fun r => NatsRole.mk (normalizeRoleName r) (formatPublishPermissions r)
      (formatSubscribePermissions r))
  let natsUsers := buildUsersAux roles users.length 0 users
  let sortedRoles := goInsertionSort roleLt natsRoles
  let sortedUsers := goInsertionSort userLt natsUsers
  let finalUsers := setIsLastAux sortedUsers.length 0 sortedUsers
  formatConfigFile ⟨dp, ds, sortedRoles, finalUsers⟩

/-! ## Change detection (`filemanager`, `HasConfigChanged`)

`calculateHash` (SHA-256 hex) is passed as an explicit function parameter;
the filesystem is an oracle giving the outcomes of the one `os.Stat` and the
one `os.ReadFile` the function can perform. -/

/-- Outcome of `os.Stat` on the config file. -/
inductive StatResult where
  | notExist
  | err
  | ok (size : Nat)
  deriving DecidableEq, Repr

/-- Outcome of `os.ReadFile` on the config file. -/
inductive ReadResult where
  | err
  | ok (content : String)
  deriving DecidableEq, Repr

/-- The filesystem as observable by one `HasConfigChanged` call. -/
structure FileOracle where
  stat : StatResult
  read : ReadResult
  deriving DecidableEq, Repr

/-- The `(bool, error)` return of `HasConfigChanged`. -/
inductive CheckOutcome where
  | changed (b : Bool)
  | error
  deriving DecidableEq, Repr

/-- `FileManager.HasConfigChanged`, returning the outcome together with the
new value of the `lastContentHash` field. -/
def hasConfigChanged (hash : String → String) (lastContentHash : String)
    (file : FileOracle) (content : String) : CheckOutcome × String :=
  let contentHash := hash content
  if contentHash = lastContentHash then (.changed false, lastContentHash)
  else
    match file.stat with
    | .notExist => (.changed true, contentHash)
    | .err => (.error, lastContentHash)
    | .ok size =>
      if size = 0 then (.changed true, contentHash)
      else
        match file.read with
        | .err => (.error, lastContentHash)
        | .ok current =>
          (.changed (decide (hash current ≠ contentHash)), contentHash)

/-! ## Atomic publication (`filemanager`, `WriteConfigFile`)

The filesystem state tracks the artifact path content, the temporary file
created by the call (pre-call there is none: `os.CreateTemp` picks a fresh
name), and the backup directory contents.  A fault record says which of the
fallible steps succeed.  `os.Chmod` does not change the modelled state; its
failure is ignored by the source. -/

/-- Modelled filesystem state around one `WriteConfigFile` call. -/
structure PubFS where
  artifact : Option String
  temp : Option String
  backups : List String
  deriving DecidableEq, Repr

/-- Which steps of `WriteConfigFile` succeed. -/
structure PubFaults where
  createTempOk : Bool
  writeOk : Bool
  closeOk : Bool
  backupOk : Bool
  renameOk : Bool
  deriving DecidableEq, Repr

/-- The `error` return of `WriteConfigFile`. -/
inductive PubResult where
  | ok
  | error
  deriving DecidableEq, Repr

/-- `FileManager.WriteConfigFile`: create a temp file in the artifact's
directory, write and close it, best-effort back up the current artifact
(failure only warned about), atomically rename the temp file onto the
artifact path.  The deferred cleanup removes the temp file whenever it still
exists on return. -/
def writeConfigFile (fs : PubFS) (f : PubFaults) (content : String) :
    PubResult × PubFS :=
  if !f.createTempOk then (.error, fs)
  else
    let fs1 : PubFS := { fs with temp := some "" }
    if !f.writeOk then (.error, { fs1 with temp := none })
    else
      let fs2 : PubFS := { fs1 with temp := some content }
      if !f.closeOk then (.error, { fs2 with temp := none })
      else
        let fs3 : PubFS :=
          match fs2.artifact with
          | none => fs2
          | some cur =>
            if f.backupOk then { fs2 with backups := fs2.backups ++ [cur] } else fs2
        if !f.renameOk then (.error, { fs3 with temp := none })
        else (.ok, { fs3 with artifact := some content, temp := none })

/-! ## Backup retention (`filemanager`, `CleanupOldBackups`) -/

/-- One `os.DirEntry` of the backup directory: `infoOk` is whether the
`file.Info()` call succeeds, `modTime` the modification time. -/
structure BackupEntry where
  name : String
  isDir : Bool
  infoOk : Bool
  modTime : Int
  deriving DecidableEq, Repr

/-- Outcome of `os.ReadDir` on the backup directory. -/
inductive DirState where
  | missing
  | readError
  | present (entries : List BackupEntry)
  deriving DecidableEq, Repr

/-- The `error` return of `CleanupOldBackups`. -/
inductive SweepResult where
  | ok
  | error
  deriving DecidableEq, Repr

/-- Observable effect of one sweep: the names on which `os.Remove` was
invoked (in directory order) and those actually removed. -/
structure SweepOutcome where
  result : SweepResult
  attempted : List String
  removed : List String
  deriving DecidableEq, Repr

/-- The per-entry loop of `CleanupOldBackups`: skip directories, skip
entries whose `Info()` fails (warned), attempt removal of entries strictly
older than `maxAge`; a failed removal is warned about and the loop goes on. -/
def sweepAux (removeOk : String → Bool) (now maxAge : Int) :
    List BackupEntry → List String × List String
  | [] => ([], [])
  | e :: rest =>
    if e.isDir then sweepAux removeOk now maxAge rest
    else if !e.infoOk then sweepAux removeOk now maxAge rest
    else if now - e.modTime > maxAge then
      let tail := sweepAux removeOk now maxAge rest
      (e.name :: tail.1, if removeOk e.name then e.name :: tail.2 else tail.2)
    else sweepAux removeOk now maxAge rest

/-- `FileManager.CleanupOldBackups`: a missing backup directory is success
with nothing to do; any other `ReadDir` error is returned; otherwise sweep
every entry. -/
def cleanupOldBackups (dir : DirState) (removeOk : String → Bool)
    (now maxAge : Int) : SweepOutcome :=
  match dir with
  | .missing => ⟨.ok, [], []⟩
  | .readError => ⟨.error, [], []⟩
  | .present entries =>
    let (att, rem) := sweepAux removeOk now maxAge entries
    ⟨.ok, att, rem⟩

/-! ## Reload signaling (`internal/nats/reloader.go`)

Times are instants on an `Int` timeline (the Go zero `time.Time` is `0`);
`time.Since(t)` at instant `now` is `now - t`.  Command execution is an
oracle `Bool`.  The mutex serializes calls; the model therefore takes the
calls as an explicit sequence. -/

/-- The mutable state of a `Reloader`. -/
structure Reloader where
  reloadCommand : String
  lastReload : Int
  minInterval : Int
  deriving DecidableEq, Repr

/-- `nats.NewReloader`: zero last-reload time, 5 second minimum interval. -/
def newReloader (cmd : String) : Reloader :=
  ⟨cmd, 0, 5⟩

/-- Result of one `ReloadConfig` call: the updated state, whether `nil` was
returned, and whether the external command was actually executed. -/
structure ReloadOutcome where
  st : Reloader
  ok : Bool
  executed : Bool
  deriving DecidableEq, Repr

/-- `Reloader.ReloadConfig` at instant `now`, with `execOk` the outcome of
the external command: inside the cool-down window the call is a no-op
success; an empty command is an error; the command is executed and
`lastReload` is updated only when it succeeds. -/
def reloadConfig (r : Reloader) (now : Int) (execOk : Bool) : ReloadOutcome :=
  if now - r.lastReload < r.minInterval then ⟨r, true, false⟩
  else
    match fields r.reloadCommand with
    | [] => ⟨r, false, false⟩
    | _ :: _ =>
      if execOk then ⟨{ r with lastReload := now }, true, true⟩
      else ⟨r, false, true⟩

/-! ## Orchestration loop (`cmd/sync/main.go`)

`runSync` is treated as one opaque cycle whose success is given by an
oracle indexed by the cycle number, and likewise for the sweep; the events
observed at the `select` are an explicit list.  The trace records, in order,
every cycle run and every `CleanupOldBackups` call with its retention
argument (in hours: `30 * 24 * time.Hour`). -/

/-- What the main loop's `select` observes. -/
inductive LoopEvent where
  | tick
  | stop
  deriving DecidableEq, Repr

/-- One observable action of `main`. -/
inductive MainAction where
  | sync (ok : Bool)
  | sweep (maxAgeHours : Nat) (ok : Bool)
  deriving DecidableEq, Repr

/-- The `for`/`select` loop of `main`: a tick runs a cycle and then the
backup sweep (both outcomes only logged); a stop returns. -/
def mainLoopAux (syncOk sweepOk : Nat → Bool) : Nat → List LoopEvent → List MainAction
  | _, [] => []
  | _, .stop :: _ => []
  | n, .tick :: rest =>
    .sync (syncOk n) :: .sweep (30 * 24) (sweepOk n) :: mainLoopAux syncOk sweepOk (n + 1) rest

/-- `main` after startup: one initial cycle (its error only logged), then
the loop. -/
def mainRun (syncOk sweepOk : Nat → Bool) (events : List LoopEvent) : List MainAction :=
  .sync (syncOk 0) :: mainLoopAux syncOk sweepOk 1 events

/-- Is an action a reconciliation cycle? -/
def isSync : MainAction → Bool
  | .sync _ => true
  | .sweep _ _ => false

/-- Is an action a backup sweep? -/
def isSweep : MainAction → Bool
  | .sync _ => false
  | .sweep _ _ => true

/-- The action with its outcome forgotten (the control-flow shape). -/
def actionKind : MainAction → MainAction
  | .sync _ => .sync true
  | .sweep h _ => .sweep h true

/-- Number of timer ticks the loop consumes before the first stop. -/
def ticksBeforeStop : List LoopEvent → Nat
  | [] => 0
  | .stop :: _ => 0
  | .tick :: rest => ticksBeforeStop rest + 1

/-! ## The string order

`strLtB` is a strict total order: irreflexive, transitive, and total on
distinct lists. -/

theorem strLtB_irrefl : ∀ l : List Char, strLtB l l = false := by
  intro l
  induction l with
  | nil => rfl
  | cons a as ih => rw [strLtB]; simp [lt_irrefl, ih]

theorem strLtB_trans : ∀ (l₁ l₂ l₃ : List Char),
    strLtB l₁ l₂ = true → strLtB l₂ l₃ = true → strLtB l₁ l₃ = true := by
  intro l₁
  induction l₁ with
  | nil =>
    intro l₂ l₃ h12 h23
    cases l₂ with
    | nil => simp [strLtB] at h12
    | cons b bs =>
      cases l₃ with
      | nil => simp [strLtB] at h23
      | cons c cs => simp [strLtB]
  | cons a as ih =>
    intro l₂ l₃ h12 h23
    cases l₂ with
    | nil => simp [strLtB] at h12
    | cons b bs =>
      cases l₃ with
      | nil => simp [strLtB] at h23
      | cons c cs =>
        rcases lt_trichotomy a b with hab | hab | hab
        · rcases lt_trichotomy b c with hbc | hbc | hbc
          · rw [strLtB]
            simp [lt_trans hab hbc]
          · subst hbc
            rw [strLtB]
            simp [hab]
          · rw [strLtB] at h23
            simp [asymm hbc, hbc] at h23
        · subst hab
          rw [strLtB] at h12
          simp [lt_irrefl] at h12
          rcases lt_trichotomy a c with hac | hac | hac
          · rw [strLtB]
            simp [hac]
          · subst hac
            rw [strLtB] at h23 ⊢
            simp [lt_irrefl] at h23 ⊢
            exact ih bs cs h12 h23
          · rw [strLtB] at h23
            simp [asymm hac, hac] at h23
        · rw [strLtB] at h12
          simp [asymm hab, hab] at h12

theorem strLtB_asymm (l₁ l₂ : List Char) (h : strLtB l₁ l₂ = true)
    (h' : strLtB l₂ l₁ = true) : False := by
  have := strLtB_trans l₁ l₂ l₁ h h'
  rw [strLtB_irrefl] at this
  exact Bool.noConfusion this

theorem strLtB_total : ∀ l₁ l₂ : List Char, l₁ ≠ l₂ →
    strLtB l₁ l₂ = true ∨ strLtB l₂ l₁ = true := by
  intro l₁
  induction l₁ with
  | nil =>
    intro l₂ h
    cases l₂ with
    | nil => exact absurd rfl h
    | cons b bs => left; simp [strLtB]
  | cons a as ih =>
    intro l₂ h
    cases l₂ with
    | nil => right; simp [strLtB]
    | cons b bs =>
      rcases lt_trichotomy a b with hab | hab | hab
      · left
        rw [strLtB]
        simp [hab]
      · subst hab
        have hne : as ≠ bs := fun he => h (by rw [he])
        rcases ih bs hne with h1 | h1
        · left
          rw [strLtB]
          simp [lt_irrefl, h1]
        · right
          rw [strLtB]
          simp [lt_irrefl, h1]
      · right
        rw [strLtB]
        simp [hab]

theorem string_data_inj {a b : String} (h : a.data = b.data) : a = b := by
  cases a
  cases b
  exact congrArg String.mk h

theorem strLt_trans {a b c : String} (h : strLt a b) (h' : strLt b c) : strLt a c :=
  strLtB_trans _ _ _ h h'

theorem strLt_asymm {a b : String} (h : strLt a b) (h' : strLt b a) : False :=
  strLtB_asymm _ _ h h'

theorem strLt_total_of_ne {a b : String} (h : a ≠ b) : strLt a b ∨ strLt b a :=
  strLtB_total _ _ (fun he => h (string_data_inj he))

/-! ## Sorting lemmas

Generic facts about `goInsertionSort` for strict comparators that are the
pullback of `strLt` along a key function: the result is a
permutation of the input; when the keys are pairwise distinct it is the
unique strictly-sorted arrangement, hence independent of the input order;
and sorting commutes with mapping a function that preserves keys and the
comparator. -/

theorem goSortAux_perm {α : Type} (r : α → α → Prop) [DecidableRel r] :
    ∀ (l acc : List α), List.Perm (goSortAux r acc l) (acc ++ l) := by
  intro l
  induction l with
  | nil => intro acc; simp [goSortAux]
  | cons a rest ih =>
    intro acc
    have h1 : List.Perm (goSortAux r (acc.orderedInsert r a) rest)
        (acc.orderedInsert r a ++ rest) := ih _
    have h2 : List.Perm (acc.orderedInsert r a ++ rest) ((a :: acc) ++ rest) :=
      (List.perm_orderedInsert r a acc).append_right rest
    exact (h1.trans h2).trans List.perm_middle.symm

theorem goInsertionSort_perm {α : Type} (r : α → α → Prop) [DecidableRel r]
    (l : List α) : List.Perm (goInsertionSort r l) l :=
  goSortAux_perm r l []

theorem pairwise_orderedInsert {α : Type} (r : α → α → Prop) [DecidableRel r]
    (key : α → String) (hr : ∀ a b, r a b ↔ strLt (key a) (key b)) (a : α) :
    ∀ l : List α, (∀ b ∈ l, key b ≠ key a) → l.Pairwise r →
      (l.orderedInsert r a).Pairwise r := by
  intro l
  induction l with
  | nil => intro _ _; simp [List.orderedInsert, List.pairwise_cons]
  | cons b l ih =>
    intro hne hp
    rw [List.pairwise_cons] at hp
    by_cases h : r a b
    · rw [List.orderedInsert_of_le r l h]
      refine List.Pairwise.cons ?_ (List.Pairwise.cons hp.1 hp.2)
      intro x hx
      rcases List.mem_cons.mp hx with hxb | hxl
      · exact hxb ▸ h
      · exact (hr a x).mpr (strLt_trans ((hr a b).mp h) ((hr b x).mp (hp.1 x hxl)))
    · have hins : (b :: l).orderedInsert r a = b :: l.orderedInsert r a := by
        dsimp only [List.orderedInsert]
        rw [if_neg h]
      rw [hins]
      refine List.Pairwise.cons ?_ (ih (fun c hc => hne c (List.mem_cons_of_mem b hc)) hp.2)
      intro x hx
      rcases (List.mem_orderedInsert r).mp hx with hxa | hxl
      · subst hxa
        have hba : key b ≠ key x := hne b (List.mem_cons_self b l)
        rcases strLt_total_of_ne hba with hlt | hlt
        · exact (hr b x).mpr hlt
        · exact absurd ((hr x b).mpr hlt) h
      · exact hp.1 x hxl

theorem pairwise_goSortAux {α : Type} (r : α → α → Prop) [DecidableRel r]
    (key : α → String) (hr : ∀ a b, r a b ↔ strLt (key a) (key b)) :
    ∀ (l acc : List α), ((acc ++ l).map key).Nodup → acc.Pairwise r →
      (goSortAux r acc l).Pairwise r := by
  intro l
  induction l with
  | nil => intro acc _ hacc; exact hacc
  | cons a rest ih =>
    intro acc hnd hacc
    have hperm : List.Perm (acc.orderedInsert r a ++ rest) (acc ++ a :: rest) :=
      ((List.perm_orderedInsert r a acc).append_right rest).trans List.perm_middle.symm
    have hnd' : ((acc.orderedInsert r a ++ rest).map key).Nodup :=
      ((hperm.map key).nodup_iff).mpr hnd
    show (goSortAux r (acc.orderedInsert r a) rest).Pairwise r
    refine ih (acc.orderedInsert r a) hnd' ?_
    refine pairwise_orderedInsert r key hr a acc ?_ hacc
    intro b hb hkey
    have hmem : key b ∈ (acc.map key) := List.mem_map_of_mem key hb
    have hmem2 : key a ∈ ((a :: rest).map key) := List.mem_map_of_mem key (List.mem_cons_self a rest)
    have hnd2 := hnd
    rw [List.map_append] at hnd2
    have hdisj := (List.nodup_append.mp hnd2).2.2
    exact hdisj hmem (by rw [hkey]; exact hmem2)

theorem goInsertionSort_pairwise {α : Type} (r : α → α → Prop) [DecidableRel r]
    (key : α → String) (hr : ∀ a b, r a b ↔ strLt (key a) (key b))
    (l : List α) (hnd : (l.map key).Nodup) : (goInsertionSort r l).Pairwise r :=
  pairwise_goSortAux r key hr l [] (by simpa using hnd) List.Pairwise.nil

theorem goInsertionSort_eq_of_perm {α : Type} (r : α → α → Prop) [DecidableRel r]
    (key : α → String) (hr : ∀ a b, r a b ↔ strLt (key a) (key b))
    {l₁ l₂ : List α} (p : List.Perm l₁ l₂) (hnd : (l₁.map key).Nodup) :
    goInsertionSort r l₁ = goInsertionSort r l₂ := by
  have hnd₂ : (l₂.map key).Nodup := ((p.map key).nodup_iff).mp hnd
  have hperm : List.Perm (goInsertionSort r l₁) (goInsertionSort r l₂) :=
    (goInsertionSort_perm r l₁).trans (p.trans (goInsertionSort_perm r l₂).symm)
  haveI : IsAntisymm α r :=
    ⟨fun a b hab hba => (strLt_asymm ((hr a b).mp hab) ((hr b a).mp hba)).elim⟩
  exact List.eq_of_perm_of_sorted hperm
    (goInsertionSort_pairwise r key hr l₁ hnd)
    (goInsertionSort_pairwise r key hr l₂ hnd₂)

theorem map_orderedInsert_compat {α β : Type} (r : α → α → Prop) (s : β → β → Prop)
    [DecidableRel r] [DecidableRel s] (f : α → β)
    (hf : ∀ a b, r a b ↔ s (f a) (f b)) (a : α) :
    ∀ l : List α, (l.orderedInsert r a).map f = (l.map f).orderedInsert s (f a) := by
  intro l
  induction l with
  | nil => rfl
  | cons b l ih =>
    by_cases h : r a b
    · rw [List.orderedInsert_of_le r l h]
      simp only [List.map_cons]
      rw [List.orderedInsert_of_le s (l.map f) ((hf a b).mp h)]
    · have h1 : (b :: l).orderedInsert r a = b :: l.orderedInsert r a := by
        dsimp only [List.orderedInsert]; rw [if_neg h]
      have h2 : (f b :: l.map f).orderedInsert s (f a)
          = f b :: (l.map f).orderedInsert s (f a) := by
        dsimp only [List.orderedInsert]; rw [if_neg (fun h2 => h ((hf a b).mpr h2))]
      rw [h1, List.map_cons, List.map_cons, h2, ih]

theorem map_goSortAux_compat {α β : Type} (r : α → α → Prop) (s : β → β → Prop)
    [DecidableRel r] [DecidableRel s] (f : α → β)
    (hf : ∀ a b, r a b ↔ s (f a) (f b)) :
    ∀ (l acc : List α), (goSortAux r acc l).map f = goSortAux s (acc.map f) (l.map f) := by
  intro l
  induction l with
  | nil => intro acc; rfl
  | cons a rest ih =>
    intro acc
    rw [goSortAux, List.map_cons, goSortAux, ih, map_orderedInsert_compat r s f hf]

theorem map_goInsertionSort_compat {α β : Type} (r : α → α → Prop) (s : β → β → Prop)
    [DecidableRel r] [DecidableRel s] (f : α → β)
    (hf : ∀ a b, r a b ↔ s (f a) (f b)) (l : List α) :
    (goInsertionSort r l).map f = goInsertionSort s (l.map f) :=
  map_goSortAux_compat r s f hf l []

/-! ## Helper lemmas about the generator's building blocks -/

theorem lowerChar_quote : lowerChar '"' = '"' := by decide

theorem strToLower_quoteStr (s : String) :
    strToLower (quoteStr s) = quoteStr (strToLower s) := by
  simp [strToLower, quoteStr, lowerChar_quote]

theorem quoteStr_injective : Function.Injective quoteStr := by
  intro a b h
  have hd : '"' :: (a.data ++ ['"']) = '"' :: (b.data ++ ['"']) := by
    simpa [quoteStr] using congrArg String.data h
  have hd2 : a.data ++ ['"'] = b.data ++ ['"'] := by simpa using hd
  have hab : a.data = b.data := (List.append_inj' hd2 rfl).1
  cases a
  cases b
  exact congrArg String.mk hab

theorem roleMapLookup_eq_none_iff (roles : List MqttRole) (i : String) :
    roleMapLookup roles i = none ↔ i ∉ roles.map MqttRole.id := by
  rw [roleMapLookup, List.find?_eq_none]
  constructor
  · intro h hmem
    rcases List.mem_map.mp hmem with ⟨r, hr, hid⟩
    have hne : ¬ r.id = i := by simpa using h r (List.mem_reverse.mpr hr)
    exact hne hid
  · intro h r hr hid
    have hid2 : r.id = i := by simpa using hid
    exact h (List.mem_map.mpr ⟨r, List.mem_reverse.mp hr, hid2⟩)

theorem roleMapLookup_eq_some_iff (roles : List MqttRole)
    (hnd : (roles.map MqttRole.id).Nodup) (i : String) (r : MqttRole) :
    roleMapLookup roles i = some r ↔ r ∈ roles ∧ r.id = i := by
  constructor
  · intro h
    refine ⟨List.mem_reverse.mp (List.mem_of_find?_eq_some h), ?_⟩
    simpa using List.find?_some h
  · rintro ⟨hmem, hid⟩
    have hsome : (roles.reverse.find? (fun x => x.id = i)).isSome := by
      rw [List.find?_isSome]
      exact ⟨r, List.mem_reverse.mpr hmem, by simpa using hid⟩
    rcases Option.isSome_iff_exists.mp hsome with ⟨r', hr'⟩
    have hmem' : r' ∈ roles := List.mem_reverse.mp (List.mem_of_find?_eq_some hr')
    have hid' : r'.id = i := by simpa using List.find?_some hr'
    have : r' = r := List.inj_on_of_nodup_map hnd hmem' hmem (by rw [hid, hid'])
    rw [roleMapLookup, hr', this]

theorem roleMapLookup_congr_of_perm {roles₁ roles₂ : List MqttRole}
    (hnd : (roles₁.map MqttRole.id).Nodup) (p : List.Perm roles₁ roles₂) (i : String) :
    roleMapLookup roles₁ i = roleMapLookup roles₂ i := by
  have hnd₂ : (roles₂.map MqttRole.id).Nodup := ((p.map MqttRole.id).nodup_iff).mp hnd
  cases h : roleMapLookup roles₁ i with
  | none =>
    rw [roleMapLookup_eq_none_iff] at h
    exact ((roleMapLookup_eq_none_iff roles₂ i).mpr
      (fun hmem => h ((p.map MqttRole.id).mem_iff.mpr hmem))).symm
  | some r =>
    rcases (roleMapLookup_eq_some_iff roles₁ hnd i r).mp h with ⟨hmem, hid⟩
    exact ((roleMapLookup_eq_some_iff roles₂ hnd₂ i r).mpr ⟨p.mem_iff.mp hmem, hid⟩).symm

/-- What one input user contributes to the generated user list, up to the
`isLast` flag: nothing when the role is unresolved, otherwise the rendered
fields. -/
def userEntryCore (roles : List MqttRole) (u : MqttUser) : Option NatsUserCore :=
  (roleMapLookup roles u.roleID).map
    (fun r => ⟨quoteStr u.username, u.password, normalizeRoleName r⟩)

theorem buildUsersAux_map_core (roles : List MqttRole) (total : Nat) :
    ∀ (i : Nat) (users : List MqttUser),
      (buildUsersAux roles total i users).map coreOf = users.filterMap (userEntryCore roles) := by
  intro i users
  induction users generalizing i with
  | nil => rfl
  | cons u rest ih =>
    rw [buildUsersAux, List.filterMap_cons]
    cases h : roleMapLookup roles u.roleID with
    | none => simpa [userEntryCore, h] using ih (i + 1)
    | some r => simpa [userEntryCore, h, coreOf] using ih (i + 1)

theorem setIsLastAux_congr (total : Nat) :
    ∀ (i : Nat) (l₁ l₂ : List NatsUser), l₁.map coreOf = l₂.map coreOf →
      setIsLastAux total i l₁ = setIsLastAux total i l₂ := by
  intro i l₁
  induction l₁ generalizing i with
  | nil =>
    intro l₂ h
    rw [List.map_nil] at h
    have h2 := h.symm
    rw [List.map_eq_nil_iff] at h2
    rw [h2]
  | cons a l₁ ih =>
    intro l₂ h
    cases l₂ with
    | nil => simp at h
    | cons b l₂ =>
      simp only [List.map_cons, List.cons.injEq] at h
      have hfields : a.username = b.username ∧ a.password = b.password ∧ a.roleName = b.roleName := by
        have := h.1
        simp [coreOf, NatsUserCore.mk.injEq] at this
        exact this
      rw [setIsLastAux, setIsLastAux, ih (i + 1) l₂ h.2]
      cases a
      cases b
      simp_all

theorem map_core_key_filterMap_sublist (roles : List MqttRole) :
    ∀ l : List MqttUser,
      List.Sublist ((l.filterMap (userEntryCore roles)).map (fun c => strToLower c.username))
        (l.map (fun u => strToLower (quoteStr u.username))) := by
  intro l
  induction l with
  | nil => simp
  | cons u rest ih =>
    rw [List.filterMap_cons, List.map_cons]
    cases h : userEntryCore roles u with
    | none => exact ih.cons _
    | some c =>
      have hc : c.username = quoteStr u.username := by
        simp only [userEntryCore, Option.map_eq_some'] at h
        rcases h with ⟨r, _, hc⟩
        rw [← hc]
      rw [List.map_cons, hc]
      exact ih.cons₂ _

/-- The rendered role entry of one input role. -/
def roleEntry (r : MqttRole) : NatsRole :=
  NatsRole.mk (normalizeRoleName r) (formatPublishPermissions r) (formatSubscribePermissions r)

theorem generateConfig_def (dp ds : DefaultPerm) (roles : List MqttRole)
    (users : List MqttUser) :
    generateConfig dp ds roles users = formatConfigFile
      ⟨formatDefaultPerm dp, formatDefaultPerm ds,
        goInsertionSort roleLt (roles.map roleEntry),
        setIsLastAux (goInsertionSort userLt (buildUsersAux roles users.length 0 users)).length 0
          (goInsertionSort userLt (buildUsersAux roles users.length 0 users))⟩ := rfl

/-- The generated artifact depends on the inputs only through the rendered
role entries and the per-user resolved cores. -/
theorem generateConfig_congr (dp ds : DefaultPerm) {roles roles' : List MqttRole}
    {users users' : List MqttUser}
    (hroles : roles.map roleEntry = roles'.map roleEntry)
    (husers : users.filterMap (userEntryCore roles) = users'.filterMap (userEntryCore roles')) :
    generateConfig dp ds roles users = generateConfig dp ds roles' users' := by
  rw [generateConfig_def, generateConfig_def, hroles]
  have hmap : (goInsertionSort userLt (buildUsersAux roles users.length 0 users)).map coreOf
      = (goInsertionSort userLt (buildUsersAux roles' users'.length 0 users')).map coreOf := by
    rw [map_goInsertionSort_compat userLt userCoreLt coreOf (fun a b => Iff.rfl),
      map_goInsertionSort_compat userLt userCoreLt coreOf (fun a b => Iff.rfl),
      buildUsersAux_map_core, buildUsersAux_map_core, husers]
  have hlen := congrArg List.length hmap
  rw [List.length_map, List.length_map] at hlen
  rw [hlen, setIsLastAux_congr _ 0 _ _ hmap]

/-- Replacing one role of the list by a role with the same identifier and the
same config-safe name leaves every resolved user core unchanged. -/
theorem userEntryCore_replace (roles₁ roles₂ : List MqttRole) (r r' : MqttRole)
    (hid : r'.id = r.id) (hname : normalizeRoleName r' = normalizeRoleName r)
    (u : MqttUser) :
    userEntryCore (roles₁ ++ r :: roles₂) u = userEntryCore (roles₁ ++ r' :: roles₂) u := by
  simp only [userEntryCore, roleMapLookup, List.reverse_append, List.reverse_cons,
    List.append_assoc, List.singleton_append, List.find?_append]
  cases hmid : List.find? (fun x => decide (x.id = u.roleID)) roles₂.reverse with
  | some v => simp [hmid]
  | none =>
    simp only [hmid, Option.none_or]
    rw [List.find?_cons, List.find?_cons, hid]
    cases hc : (decide (r.id = u.roleID)) with
    | false => simp
    | true => simp [hname]

/-- Claim C7: a user whose `role_id` matches no fetched role's ID contributes
no entry to the generated artifact, causes no error, and all other users'
entries are exactly as if the dangling user were absent from the input. -/
theorem C7_dangling_user_excluded (dp ds : DefaultPerm) (roles : List MqttRole)
    (users₁ users₂ : List MqttUser) (u : MqttUser)
    (h : u.roleID ∉ roles.map MqttRole.id) :
    generateConfig dp ds roles (users₁ ++ u :: users₂)
      = generateConfig dp ds roles (users₁ ++ users₂) := by
  have hnone : roleMapLookup roles u.roleID = none :=
    (roleMapLookup_eq_none_iff roles u.roleID).mpr h
  apply generateConfig_congr dp ds rfl
  simp [List.filterMap_append, List.filterMap_cons, userEntryCore, hnone]

theorem C7_witness :
    ("r9" ∉ ([MqttRole.mk "r1" "Admin" "" ""] : List MqttRole).map MqttRole.id)
    ∧ generateConfig (.str "") (.str "") [MqttRole.mk "r1" "Admin" "" ""]
        ([MqttUser.mk "u1" "bob" "pw" "r1" true]
          ++ MqttUser.mk "u2" "alice" "pw2" "r9" true :: [])
      = generateConfig (.str "") (.str "") [MqttRole.mk "r1" "Admin" "" ""]
        ([MqttUser.mk "u1" "bob" "pw" "r1" true] ++ []) :=
  ⟨by decide, C7_dangling_user_excluded (.str "") (.str "") [MqttRole.mk "r1" "Admin" "" ""]
    [MqttUser.mk "u1" "bob" "pw" "r1" true] [] (MqttUser.mk "u2" "alice" "pw2" "r9" true)
    (by decide)⟩

/-- Claim C10: `GenerateConfig` never inspects a user's `Active` flag — the
artifact is unchanged under flipping it, so an inactive user resolving to a
fetched role is included exactly as the identical active user would be (the
active-user filtering lives in the fetch layer's query, outside the
generator). -/
theorem C10_active_flag_ignored (dp ds : DefaultPerm) (roles : List MqttRole)
    (users₁ users₂ : List MqttUser) (u : MqttUser) (b₁ b₂ : Bool) :
    generateConfig dp ds roles (users₁ ++ { u with active := b₁ } :: users₂)
      = generateConfig dp ds roles (users₁ ++ { u with active := b₂ } :: users₂) := by
  apply generateConfig_congr dp ds rfl
  simp [List.filterMap_append, List.filterMap_cons, userEntryCore]

/-- Claim C9: a permissions field whose bytes are not a valid JSON string
array degrades to the literal empty-string token in the corresponding
formatter, and generation proceeds without error, producing exactly the
artifact of the role with that field emptied. -/
theorem C9_malformed_permissions_degrade (r : MqttRole)
    (hpub : parseStringArray r.publishPermissions = none) :
    formatPublishPermissions r = "\"\""
    ∧ (∀ r' : MqttRole, parseStringArray r'.subscribePermissions = none →
        formatSubscribePermissions r' = "\"\"")
    ∧ ∀ (dp ds : DefaultPerm) (roles₁ roles₂ : List MqttRole) (users : List MqttUser),
        generateConfig dp ds (roles₁ ++ r :: roles₂) users
          = generateConfig dp ds (roles₁ ++ { r with publishPermissions := "" } :: roles₂) users := by
  have hfmt : formatPublishPermissions r = "\"\"" := by
    rw [formatPublishPermissions, getPublishPermissions]
    by_cases he : r.publishPermissions = ""
    · rw [if_pos he]; rfl
    · rw [if_neg he, hpub]
  refine ⟨hfmt, ?_, ?_⟩
  · intro r' hsub
    rw [formatSubscribePermissions, getSubscribePermissions]
    by_cases he : r'.subscribePermissions = ""
    · rw [if_pos he]; rfl
    · rw [if_neg he, hsub]
  · intro dp ds roles₁ roles₂ users
    have hrepl : roleEntry r = roleEntry { r with publishPermissions := "" } := by
      rw [roleEntry, roleEntry, hfmt]
      rfl
    apply generateConfig_congr dp ds
    · simp only [List.map_append, List.map_cons, hrepl]
    · have hfun : userEntryCore (roles₁ ++ r :: roles₂)
          = userEntryCore (roles₁ ++ { r with publishPermissions := "" } :: roles₂) :=
        funext (fun u => userEntryCore_replace roles₁ roles₂ r
          { r with publishPermissions := "" } rfl rfl u)
      rw [hfun]

theorem C9_witness :
    parseStringArray "nope" = none
    ∧ formatPublishPermissions (MqttRole.mk "r1" "Admin" "nope" "[\"a\"]") = "\"\"" :=
  ⟨by decide,
    (C9_malformed_permissions_degrade (MqttRole.mk "r1" "Admin" "nope" "[\"a\"]") (by decide)).1⟩

/-- Claim C1 is false as stated: two users whose usernames agree after
lower-casing ("Bob" and "bob") tie under the sort key, so their relative
order — and hence the output text — follows the input order. -/
theorem C1_counterexample :
    List.Perm [MqttUser.mk "u1" "Bob" "p1" "r1" true, MqttUser.mk "u2" "bob" "p2" "r1" true]
      [MqttUser.mk "u2" "bob" "p2" "r1" true, MqttUser.mk "u1" "Bob" "p1" "r1" true]
    ∧ generateConfig (.str "x") (.list []) [MqttRole.mk "r1" "R" "" ""]
        [MqttUser.mk "u1" "Bob" "p1" "r1" true, MqttUser.mk "u2" "bob" "p2" "r1" true]
      ≠ generateConfig (.str "x") (.list []) [MqttRole.mk "r1" "R" "" ""]
        [MqttUser.mk "u2" "bob" "p2" "r1" true, MqttUser.mk "u1" "Bob" "p1" "r1" true] :=
  ⟨List.Perm.swap (MqttUser.mk "u2" "bob" "p2" "r1" true)
    (MqttUser.mk "u1" "Bob" "p1" "r1" true) [], by decide⟩

/-- Claim C1 (amended): for inputs whose role identifiers, config-safe role
names, and lowercased usernames are each pairwise distinct, `GenerateConfig`
produces byte-identical output for every permutation of the role and user
lists. -/
theorem C1_determinism (dp ds : DefaultPerm) (roles₁ roles₂ : List MqttRole)
    (users₁ users₂ : List MqttUser)
    (hr : List.Perm roles₁ roles₂) (hu : List.Perm users₁ users₂)
    (hid : (roles₁.map MqttRole.id).Nodup)
    (hname : (roles₁.map normalizeRoleName).Nodup)
    (huser : (users₁.map (fun u => strToLower u.username)).Nodup) :
    generateConfig dp ds roles₁ users₁ = generateConfig dp ds roles₂ users₂ := by
  have hroles : goInsertionSort roleLt (roles₁.map roleEntry)
      = goInsertionSort roleLt (roles₂.map roleEntry) := by
    refine goInsertionSort_eq_of_perm roleLt (fun nr => nr.name) (fun a b => Iff.rfl)
      (hr.map roleEntry) ?_
    rw [List.map_map]
    exact hname
  have hfun : userEntryCore roles₁ = userEntryCore roles₂ :=
    funext (fun u => by
      rw [userEntryCore, userEntryCore, roleMapLookup_congr_of_perm hid hr u.roleID])
  have hperm : List.Perm (users₁.filterMap (userEntryCore roles₁))
      (users₂.filterMap (userEntryCore roles₂)) := by
    rw [← hfun]
    exact hu.filterMap _
  have hbig : (users₁.map (fun u => strToLower (quoteStr u.username))).Nodup := by
    have he : users₁.map (fun u => strToLower (quoteStr u.username))
        = (users₁.map (fun u => strToLower u.username)).map quoteStr := by
      rw [List.map_map]
      exact List.map_congr_left (fun u _ => strToLower_quoteStr u.username)
    rw [he]
    exact huser.map quoteStr_injective
  have hndcores : ((users₁.filterMap (userEntryCore roles₁)).map
      (fun c => strToLower c.username)).Nodup :=
    (map_core_key_filterMap_sublist roles₁ users₁).nodup hbig
  have hcores : goInsertionSort userCoreLt (users₁.filterMap (userEntryCore roles₁))
      = goInsertionSort userCoreLt (users₂.filterMap (userEntryCore roles₂)) :=
    goInsertionSort_eq_of_perm userCoreLt (fun c => strToLower c.username)
      (fun a b => Iff.rfl) hperm hndcores
  rw [generateConfig_def, generateConfig_def, hroles]
  have hmap : (goInsertionSort userLt (buildUsersAux roles₁ users₁.length 0 users₁)).map coreOf
      = (goInsertionSort userLt (buildUsersAux roles₂ users₂.length 0 users₂)).map coreOf := by
    rw [map_goInsertionSort_compat userLt userCoreLt coreOf (fun a b => Iff.rfl),
      map_goInsertionSort_compat userLt userCoreLt coreOf (fun a b => Iff.rfl),
      buildUsersAux_map_core, buildUsersAux_map_core]
    exact hcores
  have hlen := congrArg List.length hmap
  rw [List.length_map, List.length_map] at hlen
  rw [hlen, setIsLastAux_congr _ 0 _ _ hmap]

theorem C1_witness :
    (([MqttRole.mk "r1" "A" "" "", MqttRole.mk "r2" "B" "" ""].map MqttRole.id).Nodup)
    ∧ (([MqttRole.mk "r1" "A" "" "", MqttRole.mk "r2" "B" "" ""].map normalizeRoleName).Nodup)
    ∧ (([MqttUser.mk "u1" "carol" "p1" "r1" true,
          MqttUser.mk "u2" "dave" "p2" "r2" true].map (fun u => strToLower u.username)).Nodup)
    ∧ generateConfig (.str "x") (.str "y")
        [MqttRole.mk "r1" "A" "" "", MqttRole.mk "r2" "B" "" ""]
        [MqttUser.mk "u1" "carol" "p1" "r1" true, MqttUser.mk "u2" "dave" "p2" "r2" true]
      = generateConfig (.str "x") (.str "y")
        [MqttRole.mk "r2" "B" "" "", MqttRole.mk "r1" "A" "" ""]
        [MqttUser.mk "u2" "dave" "p2" "r2" true, MqttUser.mk "u1" "carol" "p1" "r1" true] :=
  ⟨by decide, by decide, by decide,
    C1_determinism (.str "x") (.str "y") _ _ _ _
      (List.Perm.swap (MqttRole.mk "r2" "B" "" "") (MqttRole.mk "r1" "A" "" "") [])
      (List.Perm.swap (MqttUser.mk "u2" "dave" "p2" "r2" true)
        (MqttUser.mk "u1" "carol" "p1" "r1" true) [])
      (by decide) (by decide) (by decide)⟩

/-! ## Claims about the file manager, reloader and orchestrator -/

theorem sweepAux_attempted (removeOk : String → Bool) (now maxAge : Int) :
    ∀ entries : List BackupEntry, (∀ e ∈ entries, e.infoOk = true) →
      (sweepAux removeOk now maxAge entries).1
        = (entries.filter (fun e => !e.isDir && decide (now - e.modTime > maxAge))).map
            BackupEntry.name := by
  intro entries
  induction entries with
  | nil => intro _; rfl
  | cons e rest ih =>
    intro hinfo
    have hinfoe : e.infoOk = true := hinfo e (List.mem_cons_self e rest)
    have hrest := ih (fun x hx => hinfo x (List.mem_cons_of_mem e hx))
    rw [sweepAux, List.filter_cons]
    cases hdir : e.isDir with
    | true => simpa [hdir] using hrest
    | false =>
      by_cases hold : now - e.modTime > maxAge
      · simp [hdir, hinfoe, hold, hrest]
      · simp [hdir, hinfoe, hold, hrest]

theorem sweepAux_removed (removeOk : String → Bool) (now maxAge : Int) :
    ∀ entries : List BackupEntry,
      (sweepAux removeOk now maxAge entries).2
        = (sweepAux removeOk now maxAge entries).1.filter removeOk := by
  intro entries
  induction entries with
  | nil => rfl
  | cons e rest ih =>
    rw [sweepAux]
    cases hdir : e.isDir with
    | true => simpa using ih
    | false =>
      cases hinfoe : e.infoOk with
      | false => simpa using ih
      | true =>
        by_cases hold : now - e.modTime > maxAge
        · cases hrm : removeOk e.name with
          | true => simp [hold, List.filter_cons, hrm, ih]
          | false => simp [hold, List.filter_cons, hrm, ih]
        · simpa [hold] using ih

/-- Claim C8: the sweeper removes exactly the regular files strictly older
than the retention window (when their metadata is readable), retains the
rest, skips directories, treats a missing backup directory as success with
nothing to do, and a per-file deletion failure does not prevent the
remaining files from being examined — the attempted set is independent of
deletion outcomes and the call still succeeds. -/
theorem C8_sweep_retention (entries : List BackupEntry) (removeOk : String → Bool)
    (now maxAge : Int) (hinfo : ∀ e ∈ entries, e.infoOk = true) :
    cleanupOldBackups .missing removeOk now maxAge = ⟨.ok, [], []⟩
    ∧ (cleanupOldBackups (.present entries) removeOk now maxAge).result = .ok
    ∧ (cleanupOldBackups (.present entries) removeOk now maxAge).attempted
        = (entries.filter (fun e => !e.isDir && decide (now - e.modTime > maxAge))).map
            BackupEntry.name
    ∧ (cleanupOldBackups (.present entries) removeOk now maxAge).removed
        = (cleanupOldBackups (.present entries) removeOk now maxAge).attempted.filter
            removeOk := by
  refine ⟨rfl, rfl, ?_, ?_⟩
  · exact sweepAux_attempted removeOk now maxAge entries hinfo
  · exact sweepAux_removed removeOk now maxAge entries

theorem C8_witness :
    (∀ e ∈ [BackupEntry.mk "a" false true 0, BackupEntry.mk "d" true true 0,
        BackupEntry.mk "b" false true 90, BackupEntry.mk "c" false true 10],
      e.infoOk = true)
    ∧ (cleanupOldBackups (.present [BackupEntry.mk "a" false true 0,
        BackupEntry.mk "d" true true 0, BackupEntry.mk "b" false true 90,
        BackupEntry.mk "c" false true 10]) (fun n => n != "c") 100 30).attempted
        = ["a", "c"]
    ∧ (cleanupOldBackups (.present [BackupEntry.mk "a" false true 0,
        BackupEntry.mk "d" true true 0, BackupEntry.mk "b" false true 90,
        BackupEntry.mk "c" false true 10]) (fun n => n != "c") 100 30).removed
        = ["a"] :=
  ⟨by decide,
    ((C8_sweep_retention [BackupEntry.mk "a" false true 0, BackupEntry.mk "d" true true 0,
      BackupEntry.mk "b" false true 90, BackupEntry.mk "c" false true 10]
      (fun n => n != "c") 100 30 (by decide)).2.2.1).trans (by decide),
    by decide⟩

/-- Claim C2: a failure at temp-file creation, write, or close makes
`WriteConfigFile` return an error with the artifact exactly as before and no
temporary file left behind; a failure of the backup copy alone is non-fatal
— the rename still happens and the artifact holds the new content. -/
theorem C2_write_config_atomic (fs : PubFS) (f : PubFaults) (content : String)
    (hpre : fs.temp = none) :
    ((f.createTempOk = false ∨ f.writeOk = false ∨ f.closeOk = false) →
      (writeConfigFile fs f content).1 = .error
      ∧ (writeConfigFile fs f content).2.artifact = fs.artifact
      ∧ (writeConfigFile fs f content).2.temp = none)
    ∧ (f.createTempOk = true → f.writeOk = true → f.closeOk = true → f.renameOk = true →
      (writeConfigFile fs f content).1 = .ok
      ∧ (writeConfigFile fs f content).2.artifact = some content
      ∧ (writeConfigFile fs f content).2.temp = none) := by
  obtain ⟨art, tmp, bks⟩ := fs
  simp only at hpre
  subst hpre
  obtain ⟨ct, w, cl, bk, rn⟩ := f
  cases ct <;> cases w <;> cases cl <;> cases bk <;> cases rn <;>
    cases art <;> simp [writeConfigFile]

theorem C2_witness :
    ((PubFaults.mk true false true true true).writeOk = false)
    ∧ (writeConfigFile (PubFS.mk (some "old") none [])
        (PubFaults.mk true false true true true) "new").1 = .error
    ∧ (writeConfigFile (PubFS.mk (some "old") none [])
        (PubFaults.mk true false true true true) "new").2.artifact = some "old"
    ∧ (writeConfigFile (PubFS.mk (some "old") none [])
        (PubFaults.mk true false true true true) "new").2.temp = none
    ∧ (writeConfigFile (PubFS.mk (some "old") none [])
        (PubFaults.mk true true true false true) "new").1 = .ok
    ∧ (writeConfigFile (PubFS.mk (some "old") none [])
        (PubFaults.mk true true true false true) "new").2.artifact = some "new" := by
  refine ⟨rfl, ?_, ?_, ?_, ?_, ?_⟩
  · exact ((C2_write_config_atomic (PubFS.mk (some "old") none [])
      (PubFaults.mk true false true true true) "new" rfl).1 (Or.inr (Or.inl rfl))).1
  · exact ((C2_write_config_atomic (PubFS.mk (some "old") none [])
      (PubFaults.mk true false true true true) "new" rfl).1 (Or.inr (Or.inl rfl))).2.1
  · exact ((C2_write_config_atomic (PubFS.mk (some "old") none [])
      (PubFaults.mk true false true true true) "new" rfl).1 (Or.inr (Or.inl rfl))).2.2
  · exact ((C2_write_config_atomic (PubFS.mk (some "old") none [])
      (PubFaults.mk true true true false true) "new" rfl).2 rfl rfl rfl rfl).1
  · exact ((C2_write_config_atomic (PubFS.mk (some "old") none [])
      (PubFaults.mk true true true false true) "new" rfl).2 rfl rfl rfl rfl).2.1

/-- Claim C5 is false as stated: a call that hits a stat error returns the
error with the cached fingerprint left at its old value, not updated to the
candidate's fingerprint. -/
theorem C5_counterexample :
    hasConfigChanged (fun s => s) "old" (FileOracle.mk .err (.ok "x")) "new"
      = (.error, "old")
    ∧ ("old" : String) ≠ (fun s : String => s) "new" :=
  ⟨by decide, by decide⟩

/-- Claim C5 (amended): a call that returns without error leaves the cached
fingerprint equal to the candidate's fingerprint (on an error it is left
unchanged), so an immediately repeated call with the same candidate
short-circuits to changed=false without consulting the filesystem. -/
theorem C5_cache_update (hash : String → String) (cache : String)
    (file : FileOracle) (content : String) :
    (∀ b : Bool, (hasConfigChanged hash cache file content).1 = .changed b →
      (hasConfigChanged hash cache file content).2 = hash content)
    ∧ ((hasConfigChanged hash cache file content).1 = .error →
      (hasConfigChanged hash cache file content).2 = cache)
    ∧ (∀ b : Bool, (hasConfigChanged hash cache file content).1 = .changed b →
      ∀ file₂ : FileOracle,
        hasConfigChanged hash (hasConfigChanged hash cache file content).2 file₂ content
          = (.changed false, (hasConfigChanged hash cache file content).2)) := by
  have hrepeat : ∀ file₂ : FileOracle,
      hasConfigChanged hash (hash content) file₂ content
        = (.changed false, hash content) := by
    intro file₂
    rw [hasConfigChanged]
    simp
  by_cases hhit : hash content = cache
  · refine ⟨fun b hb => ?_, fun he => ?_, fun b hb file₂ => ?_⟩
    · simp [hasConfigChanged, hhit]
    · simp [hasConfigChanged, hhit] at he
    · have h2 : (hasConfigChanged hash cache file content).2 = cache := by
        simp [hasConfigChanged, hhit]
      rw [h2, ← hhit]
      exact hrepeat file₂
  · cases hst : file.stat with
    | notExist =>
      refine ⟨fun b hb => ?_, fun he => ?_, fun b hb file₂ => ?_⟩
      · simp [hasConfigChanged, hhit, hst]
      · simp [hasConfigChanged, hhit, hst] at he
      · have h2 : (hasConfigChanged hash cache file content).2 = hash content := by
          simp [hasConfigChanged, hhit, hst]
        rw [h2]
        exact hrepeat file₂
    | err =>
      refine ⟨fun b hb => ?_, fun he => ?_, fun b hb file₂ => ?_⟩
      · simp [hasConfigChanged, hhit, hst] at hb
      · simp [hasConfigChanged, hhit, hst]
      · simp [hasConfigChanged, hhit, hst] at hb
    | ok size =>
      cases size with
      | zero =>
        refine ⟨fun b hb => ?_, fun he => ?_, fun b hb file₂ => ?_⟩
        · simp [hasConfigChanged, hhit, hst]
        · simp [hasConfigChanged, hhit, hst] at he
        · have h2 : (hasConfigChanged hash cache file content).2 = hash content := by
            simp [hasConfigChanged, hhit, hst]
          rw [h2]
          exact hrepeat file₂
      | succ n =>
        cases hrd : file.read with
        | err =>
          refine ⟨fun b hb => ?_, fun he => ?_, fun b hb file₂ => ?_⟩
          · simp [hasConfigChanged, hhit, hst, hrd] at hb
          · simp [hasConfigChanged, hhit, hst, hrd]
          · simp [hasConfigChanged, hhit, hst, hrd] at hb
        | ok current =>
          refine ⟨fun b hb => ?_, fun he => ?_, fun b hb file₂ => ?_⟩
          · simp [hasConfigChanged, hhit, hst, hrd]
          · simp [hasConfigChanged, hhit, hst, hrd] at he
          · have h2 : (hasConfigChanged hash cache file content).2 = hash content := by
              simp [hasConfigChanged, hhit, hst, hrd]
            rw [h2]
            exact hrepeat file₂

theorem C5_witness :
    (hasConfigChanged (fun s => s) "a" (FileOracle.mk .notExist .err) "b").1
      = .changed true
    ∧ hasConfigChanged (fun s => s)
        (hasConfigChanged (fun s => s) "a" (FileOracle.mk .notExist .err) "b").2
        (FileOracle.mk .err .err) "b"
      = (.changed false,
        (hasConfigChanged (fun s => s) "a" (FileOracle.mk .notExist .err) "b").2) :=
  ⟨by decide,
    (C5_cache_update (fun s => s) "a" (FileOracle.mk .notExist .err) "b").2.2 true
      (by decide) (FileOracle.mk .err .err)⟩

/-- Claim C6: when the candidate's fingerprint differs from the cached one, a
missing artifact file yields changed=true with no error, a zero-length file
yields changed=true with no error, and any other stat failure or a read
failure is propagated as an error (leaving the cache untouched) — a missing
file is never an error. -/
theorem C6_missing_file_handling (hash : String → String) (cache content : String)
    (hne : hash content ≠ cache) :
    (∀ rd : ReadResult, hasConfigChanged hash cache (FileOracle.mk .notExist rd) content
        = (.changed true, hash content))
    ∧ (∀ rd : ReadResult, hasConfigChanged hash cache (FileOracle.mk (.ok 0) rd) content
        = (.changed true, hash content))
    ∧ (∀ rd : ReadResult, hasConfigChanged hash cache (FileOracle.mk .err rd) content
        = (.error, cache))
    ∧ (∀ n : Nat, hasConfigChanged hash cache (FileOracle.mk (.ok (n + 1)) .err) content
        = (.error, cache)) := by
  refine ⟨fun rd => ?_, fun rd => ?_, fun rd => ?_, fun n => ?_⟩ <;>
    simp [hasConfigChanged, hne]

theorem C6_witness :
    ((fun s : String => s) "y" ≠ "x")
    ∧ hasConfigChanged (fun s => s) "x" (FileOracle.mk .notExist .err) "y"
        = (.changed true, "y")
    ∧ hasConfigChanged (fun s => s) "x" (FileOracle.mk .err .err) "y" = (.error, "x") :=
  ⟨by decide,
    (C6_missing_file_handling (fun s => s) "x" "y" (by decide)).1 .err,
    (C6_missing_file_handling (fun s => s) "x" "y" (by decide)).2.2.1 .err⟩

/-- Claim C3 is false as stated: when the first signal's command execution
fails, `lastReload` is not updated, so a second signal 2 seconds later (well
inside the 5-second window) executes the external command again — two
executions for the pair. -/
theorem C3_counterexample :
    ((102 : Int) - 100 < 5)
    ∧ (reloadConfig (newReloader "nats-server --signal reload") 100 false).executed = true
    ∧ (reloadConfig (newReloader "nats-server --signal reload") 100 false).ok = false
    ∧ (reloadConfig (reloadConfig (newReloader "nats-server --signal reload") 100 false).st
        102 true).executed = true :=
  ⟨by decide, by decide, by decide, by decide⟩

/-- Claim C3 (amended): when the first of the two signals executes the
reload command successfully, a second signal issued less than `minInterval`
later is a debounced no-op success — it returns nil without executing the
command and leaves the state (in particular the timestamp, which only
successful executions update) unchanged. -/
theorem C3_debounce_after_success (r : Reloader) (now₁ now₂ : Int) (e₁ e₂ : Bool)
    (hexec : (reloadConfig r now₁ e₁).executed = true)
    (hok : (reloadConfig r now₁ e₁).ok = true)
    (hwin : now₂ - now₁ < r.minInterval) :
    reloadConfig (reloadConfig r now₁ e₁).st now₂ e₂
      = ⟨(reloadConfig r now₁ e₁).st, true, false⟩ := by
  have hstep : (reloadConfig r now₁ e₁).st = { r with lastReload := now₁ } := by
    rw [reloadConfig] at hexec hok ⊢
    by_cases hdeb : now₁ - r.lastReload < r.minInterval
    · rw [if_pos hdeb] at hexec
      simp at hexec
    · rw [if_neg hdeb] at hexec hok ⊢
      cases hf : fields r.reloadCommand with
      | nil =>
        rw [hf] at hexec
        simp at hexec
      | cons a as =>
        cases e₁ with
        | false =>
          rw [hf] at hok
          simp at hok
        | true => simp
  rw [hstep, reloadConfig]
  have hwin2 : now₂ - ({ r with lastReload := now₁ } : Reloader).lastReload
      < ({ r with lastReload := now₁ } : Reloader).minInterval := hwin
  rw [if_pos hwin2]

theorem C3_witness :
    (reloadConfig (newReloader "nats-server --signal reload") 100 true).executed = true
    ∧ (reloadConfig (newReloader "nats-server --signal reload") 100 true).ok = true
    ∧ ((102 : Int) - 100 < (newReloader "nats-server --signal reload").minInterval)
    ∧ reloadConfig (reloadConfig (newReloader "nats-server --signal reload") 100 true).st
        102 false
      = ⟨(reloadConfig (newReloader "nats-server --signal reload") 100 true).st,
          true, false⟩ :=
  ⟨by decide, by decide, by decide,
    C3_debounce_after_success (newReloader "nats-server --signal reload") 100 102 true false
      (by decide) (by decide) (by decide)⟩

/-- Claim C4 is false as stated: the initial startup cycle is not followed
by any `CleanupOldBackups` call — a run receiving a stop signal right after
it performs one reconciliation cycle and zero sweeps. -/
theorem C4_counterexample :
    (mainRun (fun _ => true) (fun _ => true) [.stop]).countP isSync = 1
    ∧ (mainRun (fun _ => true) (fun _ => true) [.stop]).countP isSweep = 0 :=
  ⟨by decide, by decide⟩

theorem mainLoopAux_shape (syncOk sweepOk syncOk' sweepOk' : Nat → Bool) :
    ∀ (events : List LoopEvent) (n : Nat),
      (mainLoopAux syncOk sweepOk n events).map actionKind
        = (mainLoopAux syncOk' sweepOk' n events).map actionKind := by
  intro events
  induction events with
  | nil => intro n; rfl
  | cons e rest ih =>
    intro n
    cases e with
    | stop => rfl
    | tick => simp [mainLoopAux, actionKind, ih (n + 1)]

theorem mainLoopAux_counts (syncOk sweepOk : Nat → Bool) :
    ∀ (events : List LoopEvent) (n : Nat),
      (mainLoopAux syncOk sweepOk n events).countP isSweep = ticksBeforeStop events
      ∧ (mainLoopAux syncOk sweepOk n events).countP isSync = ticksBeforeStop events := by
  intro events
  induction events with
  | nil => intro n; exact ⟨rfl, rfl⟩
  | cons e rest ih =>
    intro n
    cases e with
    | stop => exact ⟨rfl, rfl⟩
    | tick =>
      have h := ih (n + 1)
      constructor
      · simp [mainLoopAux, ticksBeforeStop, List.countP_cons, isSync, isSweep, h.1]
      · simp [mainLoopAux, ticksBeforeStop, List.countP_cons, isSync, isSweep, h.2]

theorem mainLoopAux_sweep_window (syncOk sweepOk : Nat → Bool) :
    ∀ (events : List LoopEvent) (n : Nat) (h : Nat) (b : Bool),
      MainAction.sweep h b ∈ mainLoopAux syncOk sweepOk n events → h = 30 * 24 := by
  intro events
  induction events with
  | nil => intro n h b hmem; simp [mainLoopAux] at hmem
  | cons e rest ih =>
    intro n h b hmem
    cases e with
    | stop => simp [mainLoopAux] at hmem
    | tick =>
      rw [mainLoopAux] at hmem
      rcases List.mem_cons.mp hmem with h1 | h1
      · exact absurd h1 (by simp)
      · rcases List.mem_cons.mp h1 with h2 | h2
        · cases h2; rfl
        · exact ih (n + 1) h b h2

/-- Claim C4 (amended): every timer-fired cycle — whatever the cycle's and
the sweep's outcomes, which never alter the control flow — is immediately
followed by a `CleanupOldBackups` call with the fixed 30-day retention
window; only the initial startup cycle is not followed by a sweep. -/
theorem C4_sweep_after_timer_cycles (syncOk sweepOk syncOk' sweepOk' : Nat → Bool)
    (events : List LoopEvent) :
    (mainRun syncOk sweepOk events).map actionKind
      = (mainRun syncOk' sweepOk' events).map actionKind
    ∧ (mainRun syncOk sweepOk events).countP isSweep = ticksBeforeStop events
    ∧ (mainRun syncOk sweepOk events).countP isSync = ticksBeforeStop events + 1
    ∧ ∀ (h : Nat) (b : Bool), MainAction.sweep h b ∈ mainRun syncOk sweepOk events →
        h = 30 * 24 := by
  refine ⟨?_, ?_, ?_, ?_⟩
  · simp [mainRun, actionKind, mainLoopAux_shape syncOk sweepOk syncOk' sweepOk' events 1]
  · simp [mainRun, List.countP_cons, isSweep, (mainLoopAux_counts syncOk sweepOk events 1).1]
  · simp [mainRun, List.countP_cons, isSync, (mainLoopAux_counts syncOk sweepOk events 1).2]
  · intro h b hmem
    rcases List.mem_cons.mp hmem with h1 | h1
    · exact absurd h1 (by simp)
    · exact mainLoopAux_sweep_window syncOk sweepOk events 1 h b h1

theorem C4_witness :
    (mainRun (fun _ => false) (fun _ => false) [.tick, .tick, .stop]).countP isSweep = 2
    ∧ (mainRun (fun _ => false) (fun _ => false) [.tick, .tick, .stop]).countP isSync = 3 :=
  ⟨((C4_sweep_after_timer_cycles (fun _ => false) (fun _ => false) (fun _ => true)
      (fun _ => true) [.tick, .tick, .stop]).2.1).trans (by decide),
    ((C4_sweep_after_timer_cycles (fun _ => false) (fun _ => false) (fun _ => true)
      (fun _ => true) [.tick, .tick, .stop]).2.2.1).trans (by decide)⟩

end Sync
